import Mathlib

/-!
Verification development for the ormspace dependency-aware context cache.

The definitions below are a shallow embedding of the Python source:
  - `ormspace/keys.py` (Key / TableKey parsing),
  - `ormspace/functions.py` (getter, cls_name_to_slug, filter_uniques),
  - `ormspace/model.py` (Model.dependencies, Model.exist_query, Model.exist,
    getmodel),
  - `ormspace/database.py` (Database.set_context, Database.update_dependencies,
    Database.exist).
Records are modelled as association lists of string fields; the Deta store is
modelled as a function from queries to record lists (or to `Except` results
where fetch failures matter).  Python truthiness of strings / lists / dicts is
modelled as non-emptiness, and `None` as `Option.none`.
-/

namespace Ormspace

/-- A stored record: a JSON object, modelled as an association list
field name to string value (dict with unique keys as produced by clients). -/
abbrev Record : Type := List (String × String)

instance {ε α : Type} [DecidableEq ε] [DecidableEq α] : DecidableEq (Except ε α) := by
  intro a b
  cases a <;> cases b
  case error.error e f => exact decidable_of_iff (e = f) (by simp)
  case error.ok e x => exact Decidable.isFalse (by simp)
  case ok.error x e => exact Decidable.isFalse (by simp)
  case ok.ok x y => exact decidable_of_iff (x = y) (by simp)

/-- First-match association-list lookup, modelling Python `dict.get(k, None)`
(dict keys are unique, so first match is the match). -/
def alookup {β : Type} (k : String) : List (String × β) → Option β
  | [] => none
  | (a, b) :: t => if a = k then some b else alookup k t

/-- Python dict insertion semantics: overwriting an existing key keeps its
position, a fresh key is appended at the end. -/
def dictInsert {κ β : Type} [DecidableEq κ] (m : List (κ × β)) (k : κ) (v : β) :
    List (κ × β) :=
  if k ∈ m.map Prod.fst then
    m.map (fun p => if p.1 = k then (k, v) else p)
  else
    m ++ [(k, v)]

/-- `functions.getter(record, "key")`: for a dict this is `record.get("key", None)`. -/
def recKey (r : Record) : Option String := alookup "key" r

/-- `functions.filter_uniques` (model.py uses it to de-duplicate dependency
lists): keep the first occurrence of each element. -/
def filterUniquesAux {α : Type} [DecidableEq α] (acc : List α) : List α → List α
  | [] => acc
  | x :: xs => if x ∈ acc then filterUniquesAux acc xs else filterUniquesAux (acc ++ [x]) xs

/-- `functions.filter_uniques`. -/
def filterUniques {α : Type} [DecidableEq α] (l : List α) : List α :=
  filterUniquesAux [] l

/-! ## KeyAddress parsing (`ormspace/keys.py`)

The pattern is `^((?P<table>\w+)\.)?(?P<key>\w+)`, applied with `re.search`;
since the pattern is anchored at the start this behaves like `re.match`.
`\w` is modelled over ASCII (letters, digits, underscore), matching the
identifiers the library handles. -/

/-- ASCII model of the regex class `\w`. -/
def isWordChar (c : Char) : Bool := c.isAlpha || c.isDigit || c = '_'

/-- Greedy `\w+` from the start of the character list: returns the maximal
word-character run and the remaining characters. -/
def wordRun : List Char → List Char × List Char
  | [] => ([], [])
  | c :: cs =>
    if isWordChar c then (c :: (wordRun cs).1, (wordRun cs).2)
    else ([], c :: cs)

/-- The `table` and `key` groups produced by matching
`^((?P<table>\w+)\.)?(?P<key>\w+)` against a string.  The table group only
participates when it is a word run followed by a dot and the key group can
still match; otherwise the regex backtracks to an absent table group. -/
def tableKeyGroups (s : List Char) : Option (List Char) × Option (List Char) :=
  if (wordRun s).1 = [] then (none, none)
  else
    match (wordRun s).2 with
    | [] => (none, some (wordRun s).1)
    | c :: rest2 =>
      if c = '.' then
        if (wordRun rest2).1 = [] then (none, some (wordRun s).1)
        else (some (wordRun s).1, some (wordRun rest2).1)
      else (none, some (wordRun s).1)

/-- Rendering step of `TableKey.__init__`: `table.key` when both groups are
truthy, the empty string otherwise. -/
def tkRender : Option (List Char) × Option (List Char) → String
  | (some t, some k) => if t ≠ [] ∧ k ≠ [] then String.mk (t ++ '.' :: k) else ""
  | _ => ""

/-- The canonical text stored by `TableKey.__init__` (keys.py): the empty
string input (or a missing value) yields no match, and the canonical form
`table.key` is produced only when both groups are truthy, otherwise `''`. -/
def tableKeyData (v : Option String) : String :=
  match v with
  | none => ""
  | some s =>
    if s.data = [] then ""
    else tkRender (tableKeyGroups s.data)

/-- The text stored by `Key.__init__` (keys.py): `self.key` is the raw value
when truthy (else `None`), and the stored data is `self.key or ''`. -/
def keyData (v : Option String) : String :=
  match v with
  | none => ""
  | some s => if s = "" then "" else s

/-! ### Lemmas about the parser -/

theorem wordRun_append : ∀ l : List Char, (wordRun l).1 ++ (wordRun l).2 = l := by
  intro l
  induction l with
  | nil => rfl
  | cons c cs ih =>
    by_cases h : isWordChar c
    · simp [wordRun, h, ih]
    · simp [wordRun, h]

theorem mem_wordRun_snd {c : Char} {l : List Char} (h : c ∈ (wordRun l).2) : c ∈ l := by
  have := wordRun_append l
  rw [← this]
  exact List.mem_append_right _ h

theorem keyData_some (s : String) : keyData (some s) = s := by
  unfold keyData
  by_cases h : s = ""
  · simp [h]
  · simp [h]

/-! ## Existence queries (`Model.exist_query`, `Model.exist`, `Database.exist`) -/

/-- `str.split()` with no argument: split on whitespace runs and drop empty
pieces.  `acc` holds the current token reversed. -/
def splitWsAux : List Char → List Char → List (List Char)
  | [], acc => if acc = [] then [] else [acc.reverse]
  | c :: cs, acc =>
    if c.isWhitespace then
      if acc = [] then splitWsAux cs [] else acc.reverse :: splitWsAux cs []
    else splitWsAux cs (c :: acc)

/-- `str.split()` on whitespace. -/
def splitWs (s : List Char) : List (List Char) := splitWsAux s []

/-- The class-level `EXIST_QUERY` attribute: absent (`None`), a single
space-separated field list, or a list of field lists. -/
abbrev ExistQ : Type := Option (String ⊕ List String)

/-- Python truthiness of the `EXIST_QUERY` attribute
(`None`, `''` and `[]` are falsy). -/
def truthyEQ : ExistQ → Bool
  | none => false
  | some (Sum.inl s) => if s = "" then false else true
  | some (Sum.inr []) => false
  | some (Sum.inr (_ :: _)) => true

/-- `{k: asjson.get(k) for k in field_list.split() if k}`: a dict built in
iteration order, pairing each (non-empty) field name with the serialized value
looked up in `asjson` (which is `None` for a missing field). -/
def buildQ (s : String) (js : List (String × String)) : List (String × Option String) :=
  ((splitWs s.data).map String.mk).foldl
    (fun acc k => if k = "" then acc else dictInsert acc k (alookup k js)) []

/-- `Model.exist_query` (model.py): `None` when `EXIST_QUERY` is falsy; one
flat query for a string spec; one query per sub-list for a list spec. -/
def exist_query (eq : ExistQ) (js : List (String × String)) :
    Option ((List (String × Option String)) ⊕ List (List (String × Option String))) :=
  if truthyEQ eq = false then none
  else
    match eq with
    | none => none
    | some (Sum.inr l) => some (Sum.inr (l.map (fun s => buildQ s js)))
    | some (Sum.inl s) => some (Sum.inl (buildQ s js))

/-- The claim's reading of `exist_query` ("omitting any field whose value is
empty"), for comparison: fields whose serialized value is missing or the empty
string are dropped from the flat query. -/
def existQueryClaim (eq : ExistQ) (js : List (String × String)) :
    Option ((List (String × Option String)) ⊕ List (List (String × Option String))) :=
  if truthyEQ eq = false then none
  else
    match eq with
    | none => none
    | some (Sum.inr l) =>
      some (Sum.inr (l.map (fun s =>
        (buildQ s js).filter (fun p => p.2 ≠ none ∧ p.2 ≠ some ""))))
    | some (Sum.inl s) =>
      some (Sum.inl ((buildQ s js).filter (fun p => p.2 ≠ none ∧ p.2 ≠ some "")))

/-- `Database.exist` (database.py): the fetched items for the query determine
the result — exactly one item is returned alone, none yields `None`, more than
one yields the item list. -/
def db_exist (items : List Record) : Option (Record ⊕ List Record) :=
  if items.length = 1 then
    match items with
    | r :: _ => some (Sum.inl r)
    | [] => none
  else if items.length = 0 then none
  else some (Sum.inr items)

/-- `Model.exist` (model.py), parametrised by the records the store returns
for the entity's exist query: `None` when `EXIST_QUERY` is falsy, the single
record when the store result is a truthy dict, an `ExistException` when it is
a truthy list, `None` otherwise. -/
def model_exist (eq : ExistQ) (fetched : List Record) : Except Unit (Option Record) :=
  if truthyEQ eq = false then Except.ok none
  else
    match db_exist fetched with
    | none => Except.ok none
    | some (Sum.inl r) => if r = ([] : Record) then Except.ok none else Except.ok (some r)
    | some (Sum.inr l) => if l = [] then Except.ok none else Except.error ()

/-! ## Registry lookup (`getmodel`, `functions.cls_name_to_slug`) -/

/-- The two-or-three character boundary patterns found by
`re.findall(r'[a-z][A-Z]|[A-Z][A-Z][a-z]', name)`: non-overlapping scan, the
two-character alternative tried first.  Structural recursion on a fuel that
bounds the scan position; every recursive call shortens the list, so fuel
equal to the length of the scanned list always suffices. -/
def findPartsAux : Nat → List Char → List (List Char)
  | 0, _ => []
  | _ + 1, [] => []
  | _ + 1, [_] => []
  | n + 1, a :: b :: rest =>
    if a.isLower && b.isUpper then [a, b] :: findPartsAux n rest
    else
      match rest with
      | [] => []
      | c :: rest2 =>
        if a.isUpper && b.isUpper && c.isLower then [a, b, c] :: findPartsAux n rest2
        else findPartsAux n (b :: c :: rest2)

/-- `re.findall(r'[a-z][A-Z]|[A-Z][A-Z][a-z]', name)`. -/
def findParts (l : List Char) : List (List Char) := findPartsAux l.length l

/-- `str.replace(pat, repl)`: replace every non-overlapping occurrence, left
to right, the replacement text not rescanned.  Fuel-based structural
recursion; every call shortens the scanned list, so fuel equal to the length
of the scanned list always suffices. -/
def replaceAllAux (pat repl : List Char) : Nat → List Char → List Char
  | 0, l => l
  | _ + 1, [] => []
  | n + 1, c :: cs =>
    if pat ≠ [] ∧ pat.isPrefixOf (c :: cs) then
      repl ++ replaceAllAux pat repl n ((c :: cs).drop pat.length)
    else
      c :: replaceAllAux pat repl n cs

/-- `str.replace(pat, repl)`. -/
def replaceAll (pat repl l : List Char) : List Char := replaceAllAux pat repl l.length l

/-- `i[0] + '_' + i[1:]` for a found part. -/
def insertUnderscore (p : List Char) : List Char :=
  match p with
  | [] => []
  | c :: cs => c :: '_' :: cs

/-- `functions.cls_name_to_slug`: replace every occurrence of each found
boundary part by its underscored form, then lowercase. -/
def cls_name_to_slug (s : String) : String :=
  String.mk
    (((findParts s.data).foldl (fun cur p => replaceAll p (insertUnderscore p) cur) s.data).map
      Char.toLower)

/-- The characters of the literal `'_key'`. -/
def keyPat : List Char := ['_', 'k', 'e', 'y']

/-- `model.getmodel`, over an explicit registry map (the global `ModelMap`).
`value[0]` raises `IndexError` on the empty string, modelled as `Except.error`;
an uppercase first character routes through `cls_name_to_slug`, otherwise
`value.replace('_key', '')` is looked up; a missing entry is `None`. -/
def getmodel {α : Type} (mm : List (String × α)) (value : String) : Except Unit (Option α) :=
  match value.data with
  | [] => Except.error ()
  | c :: _ =>
    if c.isUpper then Except.ok (alookup (cls_name_to_slug value) mm)
    else Except.ok (alookup (String.mk (replaceAll keyPat [] value.data)) mm)

/-- The claim's reading of registry lookup, for comparison: only a trailing
`_key` suffix is stripped, and unknown names (including the empty string)
yield no result without raising. -/
def getmodelClaim {α : Type} (mm : List (String × α)) (value : String) : Option α :=
  match value.data with
  | [] => none
  | c :: _ =>
    if c.isUpper then alookup (cls_name_to_slug value) mm
    else
      if keyPat.isSuffixOf value.data then
        alookup (String.mk (value.data.take (value.data.length - 4))) mm
      else alookup value mm

/-! ## Scope cache population (`Database.set_context`, `Database.update_dependencies`)

A per-model context slot is the dict `{key(i): i for i in fetched}`; the keys
are `Option String` because `functions.getter` returns `None` for a record
without a `key` field.  The store is modelled as a function from the query to
the fetched record list; the `Bool` component of the results records whether a
store fetch was performed by the call. -/

/-- A query dict (`dict[str, str]`). -/
abbrev Query : Type := List (String × String)

/-- One model's context slot: the dict built from fetched records. -/
abbrev Slot : Type := List (Option String × Record)

/-- Python truthiness of the optional query argument: `None`, `{}` (and `[]`)
are falsy. -/
def queryTruthy : Option Query → Bool
  | none => false
  | some [] => false
  | some (_ :: _) => true

/-- `query or self.model.FETCH_QUERY`. -/
def queryOr (q fq : Option Query) : Option Query :=
  if queryTruthy q then q else fq

/-- `{key(i): i for i in fetched}`: index the fetched records by their `key`
attribute, with dict-comprehension overwrite semantics. -/
def buildContext (recs : List Record) : Slot :=
  recs.foldl (fun m r => dictInsert m (recKey r) r) []

/-- `Database.set_context` (database.py): a truthy `query` forces
`lazy = False`; a lazy call with a truthy existing slot returns it unchanged
without fetching; otherwise the store is fetched with
`query or FETCH_QUERY` and the slot is replaced.  The `Bool` records whether
a fetch happened. -/
def set_context (fetch : Option Query → List Record) (slot : Slot) (lazy : Bool)
    (query fq : Option Query) : Slot × Bool :=
  let lz := if queryTruthy query then false else lazy
  if lz then
    if slot = ([] : Slot) then (buildContext (fetch (queryOr query fq)), true)
    else (slot, false)
  else (buildContext (fetch (queryOr query fq)), true)

/-- `Database.set_context` when the underlying fetch may fail: the same
control flow, a failed fetch propagating as an error. -/
def set_contextE (fetchE : Option Query → Except Unit (List Record)) (slot : Slot)
    (lazy : Bool) (query fq : Option Query) : Except Unit (Slot × Bool) :=
  let lz := if queryTruthy query then false else lazy
  if lz then
    if slot = ([] : Slot) then
      match fetchE (queryOr query fq) with
      | Except.error e => Except.error e
      | Except.ok recs => Except.ok (buildContext recs, true)
    else Except.ok (slot, false)
  else
    match fetchE (queryOr query fq) with
    | Except.error e => Except.error e
    | Except.ok recs => Except.ok (buildContext recs, true)

/-- The scope cache: one slot per model name (a `ContextVar` defaulting to the
empty dict). -/
abbrev Scope : Type := List (String × Slot)

instance : DecidableEq Record := inferInstance

instance : DecidableEq Slot := inferInstance

instance : DecidableEq Scope := inferInstance

/-- The current contents of a model's slot (`ContextVar` default `{}`). -/
def slotOf (sc : Scope) (m : String) : Slot := (alookup m sc).getD ([] : Slot)

/-- Commit a model's slot to the scope (`contextvar.set`). -/
def writeSlot (sc : Scope) (m : String) (s : Slot) : Scope := dictInsert sc m s

/-- The query `update_dependencies` hands to a model's `update_model_context`:
`queries.get(item.item_name(), item.FETCH_QUERY)` when a queries dict was
supplied, else `item.FETCH_QUERY`. -/
def resolvedQuery (queries : Option (List (String × Option Query)))
    (fetchQ : String → Option Query) (m : String) : Option Query :=
  match queries with
  | none => fetchQ m
  | some qs => (alookup m qs).getD (fetchQ m)

/-- `Database.update_dependencies` (database.py): one `set_context` task per
dependency model, here sequentialised in task-completion order.  A completed
task has already committed its slot; the first failing fetch aborts the call
(the task group cancels the rest), leaving earlier commits in place.  Returns
whether the whole call succeeded together with the final scope. -/
def update_dependencies (fetchE : String → Option Query → Except Unit (List Record))
    (fetchQ : String → Option Query) (queries : Option (List (String × Option Query)))
    (lazy : Bool) : List String → Scope → Bool × Scope
  | [], sc => (true, sc)
  | m :: rest, sc =>
    match set_contextE (fetchE m) (slotOf sc m) lazy (resolvedQuery queries fetchQ m) (fetchQ m) with
    | Except.error _ => (false, sc)
    | Except.ok (slot, _) => update_dependencies fetchE fetchQ queries lazy rest (writeSlot sc m slot)

/-! ## Dependency closure (`Model.dependencies`)

The registry maps each model name to the `primary_dependencies` the metadata
resolves for it.  `Model.dependencies` runs the inner helper
`recursive(model)`: append the model to the result and recurse into each of
its primary dependencies, with no visited check; `filter_uniques` is applied
only to the final list.  The recursion is modelled with explicit fuel (one
unit per `recursive` call): the Python call terminates exactly when some
finite fuel suffices. -/

/-- The registered direct-dependency graph: model name to the names returned
by `primary_dependencies`. -/
abbrev Registry : Type := List (String × List String)

/-- `primary_dependencies` of a model, read off the registry. -/
def primaryDeps (reg : Registry) (m : String) : List String :=
  (alookup m reg).getD []

/-- The depth-first expansion performed by the helper `recursive` in
`Model.dependencies`: visit the head of the worklist, append it to the
accumulator, push its primary dependencies in front — with no visited check,
exactly as in the source.  Fuel `0` means the recursion did not complete. -/
def depVisit (reg : Registry) : Nat → List String → List String → Option (List String)
  | 0, _, _ => none
  | _ + 1, [], acc => some acc.reverse
  | fuel + 1, t :: todo, acc => depVisit reg fuel (primaryDeps reg t ++ todo) (t :: acc)

/-- `Model.dependencies` with fuel: seed the traversal with the model's
primary dependencies plus `EXTRA_DEPENDENTS`, then de-duplicate the final
list with `filter_uniques`. -/
def dependenciesFuel (reg : Registry) (extras : List String) (cls : String) (fuel : Nat) :
    Option (List String) :=
  (depVisit reg fuel (primaryDeps reg cls ++ extras) []).map filterUniques

/-- A two-model registry with a reference cycle: `a` references `b` and `b`
references `a`. -/
def cycReg : Registry := [("a", ["b"]), ("b", ["a"])]

/-! ## Helper lemmas -/

theorem string_data_nil {v : String} (h : v.data = []) : v = "" := by
  cases v with
  | mk l =>
    simp only [String.data] at h
    rw [h]

theorem alookup_mem {β : Type} {k : String} {mm : List (String × β)} {b : β}
    (h : alookup k mm = some b) : b ∈ mm.map Prod.snd := by
  induction mm with
  | nil => simp [alookup] at h
  | cons p t ih =>
    cases p with
    | mk a c =>
      unfold alookup at h
      by_cases ha : a = k
      · rw [if_pos ha] at h
        injection h with h
        simp [h]
      · rw [if_neg ha] at h
        simp [ih h]

theorem mem_map_fst_exists {κ β : Type} {m : List (κ × β)} {x : κ}
    (h : x ∈ m.map Prod.fst) : ∃ v, (x, v) ∈ m := by
  obtain ⟨⟨a, b⟩, hm, he⟩ := List.mem_map.mp h
  simp only at he
  subst he
  exact ⟨b, hm⟩

theorem dictInsert_keys {κ β : Type} [DecidableEq κ] (m : List (κ × β)) (k : κ) (v : β) :
    (dictInsert m k v).map Prod.fst =
      if k ∈ m.map Prod.fst then m.map Prod.fst else m.map Prod.fst ++ [k] := by
  unfold dictInsert
  split
  · rw [List.map_map]
    refine List.map_congr_left ?_
    intro p _
    by_cases hp : p.1 = k
    · simp [hp]
    · simp [hp]
  · simp

theorem dictInsert_mem_fst {κ β : Type} [DecidableEq κ] (m : List (κ × β)) (k : κ) (v : β) :
    k ∈ (dictInsert m k v).map Prod.fst := by
  rw [dictInsert_keys]
  split
  · assumption
  · simp

theorem dictInsert_fst_mono {κ β : Type} [DecidableEq κ] {m : List (κ × β)} {x : κ} (k : κ)
    (v : β) (h : x ∈ m.map Prod.fst) : x ∈ (dictInsert m k v).map Prod.fst := by
  rw [dictInsert_keys]
  split
  · exact h
  · exact List.mem_append_left _ h

theorem dictInsert_prop {κ β : Type} [DecidableEq κ] {P : κ × β → Prop} {m : List (κ × β)}
    {k : κ} {v : β} (hm : ∀ p ∈ m, P p) (hkv : P (k, v)) : ∀ p ∈ dictInsert m k v, P p := by
  intro p hp
  unfold dictInsert at hp
  split at hp
  · obtain ⟨q, hq, he⟩ := List.mem_map.mp hp
    by_cases hqk : q.1 = k
    · rw [if_pos hqk] at he
      exact he ▸ hkv
    · rw [if_neg hqk] at he
      exact he ▸ hm q hq
  · rcases List.mem_append.mp hp with h | h
    · exact hm p h
    · simp only [List.mem_singleton] at h
      exact h ▸ hkv

theorem buildContext_go_prop (recs : List Record) :
    ∀ m : Slot, (∀ p ∈ m, recKey p.2 = p.1) →
      ∀ p ∈ recs.foldl (fun acc r => dictInsert acc (recKey r) r) m, recKey p.2 = p.1 := by
  induction recs with
  | nil =>
    intro m hm
    simpa using hm
  | cons r rs ih =>
    intro m hm
    simp only [List.foldl_cons]
    exact ih _ (dictInsert_prop hm rfl)

theorem buildContext_go_fst_mono (recs : List Record) :
    ∀ (m : Slot) (x : Option String), x ∈ m.map Prod.fst →
      x ∈ ((recs.foldl (fun acc r => dictInsert acc (recKey r) r) m).map Prod.fst) := by
  induction recs with
  | nil =>
    intro m x h
    simpa using h
  | cons r rs ih =>
    intro m x h
    simp only [List.foldl_cons]
    exact ih _ x (dictInsert_fst_mono _ _ h)

theorem buildContext_go_mem (recs : List Record) :
    ∀ (m : Slot) (r : Record), r ∈ recs →
      recKey r ∈ ((recs.foldl (fun acc r => dictInsert acc (recKey r) r) m).map Prod.fst) := by
  induction recs with
  | nil =>
    intro m r hr
    simp at hr
  | cons r0 rs ih =>
    intro m r hr
    simp only [List.foldl_cons]
    rcases List.mem_cons.mp hr with h | h
    · subst h
      exact buildContext_go_fst_mono rs _ _ (dictInsert_mem_fst m (recKey r) r)
    · exact ih _ r h

theorem buildQ_go_prop (js : List (String × String)) (toks : List String) :
    ∀ acc : List (String × Option String),
      (∀ p ∈ acc, p.2 = alookup p.1 js ∧ p.1 ≠ "") →
      ∀ p ∈ toks.foldl (fun acc k => if k = "" then acc else dictInsert acc k (alookup k js)) acc,
        p.2 = alookup p.1 js ∧ p.1 ≠ "" := by
  induction toks with
  | nil =>
    intro acc hacc
    simpa using hacc
  | cons t ts ih =>
    intro acc hacc
    simp only [List.foldl_cons]
    by_cases ht : t = ""
    · rw [if_pos ht]
      exact ih acc hacc
    · rw [if_neg ht]
      exact ih _ (dictInsert_prop hacc ⟨rfl, ht⟩)

theorem buildQ_go_fst_mono (js : List (String × String)) (toks : List String) :
    ∀ (acc : List (String × Option String)) (x : String), x ∈ acc.map Prod.fst →
      x ∈ ((toks.foldl (fun acc k => if k = "" then acc else dictInsert acc k (alookup k js)) acc).map
        Prod.fst) := by
  induction toks with
  | nil =>
    intro acc x h
    simpa using h
  | cons t ts ih =>
    intro acc x h
    simp only [List.foldl_cons]
    by_cases ht : t = ""
    · rw [if_pos ht]
      exact ih acc x h
    · rw [if_neg ht]
      exact ih _ x (dictInsert_fst_mono _ _ h)

theorem buildQ_go_mem (js : List (String × String)) (toks : List String) :
    ∀ (acc : List (String × Option String)) (k : String), k ∈ toks → k ≠ "" →
      k ∈ ((toks.foldl (fun acc k => if k = "" then acc else dictInsert acc k (alookup k js)) acc).map
        Prod.fst) := by
  induction toks with
  | nil =>
    intro acc k hk
    simp at hk
  | cons t ts ih =>
    intro acc k hk hne
    simp only [List.foldl_cons]
    rcases List.mem_cons.mp hk with h | h
    · subst h
      rw [if_neg hne]
      exact buildQ_go_fst_mono js ts _ k (dictInsert_mem_fst acc k (alookup k js))
    · exact ih _ k h hne

theorem splitWsAux_ne_nil :
    ∀ (s acc : List Char) (t : List Char), t ∈ splitWsAux s acc → t ≠ [] := by
  intro s
  induction s with
  | nil =>
    intro acc t ht
    unfold splitWsAux at ht
    by_cases ha : acc = []
    · rw [if_pos ha] at ht
      simp at ht
    · rw [if_neg ha] at ht
      simp only [List.mem_singleton] at ht
      subst ht
      simpa using ha
  | cons c cs ih =>
    intro acc t ht
    unfold splitWsAux at ht
    by_cases hw : c.isWhitespace
    · rw [if_pos hw] at ht
      by_cases ha : acc = []
      · rw [if_pos ha] at ht
        exact ih [] t ht
      · rw [if_neg ha] at ht
        rcases List.mem_cons.mp ht with h | h
        · subst h
          simpa using ha
        · exact ih [] t h
    · rw [if_neg hw] at ht
      exact ih (c :: acc) t ht

theorem splitWs_tok_ne_empty {s : List Char} {k : String}
    (h : k ∈ (splitWs s).map String.mk) : k ≠ "" := by
  obtain ⟨t, ht, he⟩ := List.mem_map.mp h
  have hne : t ≠ [] := splitWsAux_ne_nil s [] t ht
  intro hk
  rw [hk] at he
  have : t = [] := by
    have := congrArg String.data he
    simpa using this
  exact hne this

theorem tkRender_fst_none : ∀ x, tkRender (none, x) = "" := by
  intro x
  cases x <;> rfl

theorem tkRender_snd_none : ∀ x, tkRender (x, none) = "" := by
  intro x
  cases x <;> rfl

theorem tkg_no_dot (l : List Char) (h : '.' ∉ l) : (tableKeyGroups l).1 = none := by
  unfold tableKeyGroups
  by_cases h1 : (wordRun l).1 = []
  · simp [h1]
  · rw [if_neg h1]
    cases h2 : (wordRun l).2 with
    | nil => rfl
    | cons c rest2 =>
      have hc : c ∈ l := mem_wordRun_snd (by rw [h2]; exact List.mem_cons_self c rest2)
      have hcd : ¬(c = '.') := fun he => h (he ▸ hc)
      simp [hcd]

theorem tkg_some_some {l t k : List Char} (h : tableKeyGroups l = (some t, some k)) :
    t ≠ [] ∧ k ≠ [] := by
  unfold tableKeyGroups at h
  by_cases h1 : (wordRun l).1 = []
  · rw [if_pos h1] at h
    exact absurd h (by simp)
  · rw [if_neg h1] at h
    cases h2 : (wordRun l).2 with
    | nil =>
      rw [h2] at h
      exact absurd h (by simp)
    | cons c rest2 =>
      rw [h2] at h
      dsimp only at h
      by_cases hc : c = '.'
      · rw [if_pos hc] at h
        by_cases h3 : (wordRun rest2).1 = []
        · rw [if_pos h3] at h
          exact absurd h (by simp)
        · rw [if_neg h3] at h
          simp only [Prod.mk.injEq, Option.some.injEq] at h
          exact ⟨h.1 ▸ h1, h.2 ▸ h3⟩
      · rw [if_neg hc] at h
        exact absurd h (by simp)

theorem cyc_depVisit_none :
    ∀ (fuel : Nat) (todo acc : List String), todo ≠ [] →
      (∀ x ∈ todo, x = "a" ∨ x = "b") → depVisit cycReg fuel todo acc = none := by
  intro fuel
  induction fuel with
  | zero =>
    intro todo acc _ _
    rfl
  | succ n ih =>
    intro todo acc hne hmem
    cases todo with
    | nil => exact absurd rfl hne
    | cons t rest =>
      have ht : t = "a" ∨ t = "b" := hmem t (List.mem_cons_self t rest)
      have hpa : primaryDeps cycReg "a" = ["b"] := by decide
      have hpb : primaryDeps cycReg "b" = ["a"] := by decide
      show depVisit cycReg n (primaryDeps cycReg t ++ rest) (t :: acc) = none
      rcases ht with h | h
      · subst h
        rw [hpa]
        refine ih _ _ (by simp) ?_
        intro x hx
        rcases List.mem_cons.mp hx with h | h
        · exact Or.inr h
        · exact hmem x (List.mem_cons_of_mem _ h)
      · subst h
        rw [hpb]
        refine ih _ _ (by simp) ?_
        intro x hx
        rcases List.mem_cons.mp hx with h | h
        · exact Or.inl h
        · exact hmem x (List.mem_cons_of_mem _ h)

/-! ## Claim theorems -/

/-- Claim C1 (code bug).  The claim says `Model.dependencies` terminates on
any finite registry even with reference cycles, visiting each type at most
once.  The code's inner helper `recursive` has no visited check, so on the
two-model cycle `a <-> b` the recursion never completes: no amount of fuel
makes the fuelled model of `Model.dependencies` return a result (the Python
original raises `RecursionError`). -/
theorem dependencies_cycle_diverges :
    ∀ fuel : Nat, dependenciesFuel cycReg [] "a" fuel = none := by
  intro fuel
  unfold dependenciesFuel
  have h : primaryDeps cycReg "a" ++ ([] : List String) = ["b"] := by decide
  rw [h, cyc_depVisit_none fuel ["b"] [] (by simp) (by intro x hx; simp at hx; simp [hx])]
  rfl

/-- Claim C5 (confirmed).  KeyAddress parsing round-trips and normalizes:
the valid composite `"tbl.abc123"` renders back identically as a `TableKey`;
a raw string with no dot renders as the empty canonical `TableKey` form while
a `Key` parse preserves the identifier; and a composite address renders as
`table.key` exactly when both regex groups are non-empty, rendering as the
empty string otherwise. -/
theorem keyaddress_parse_normalize :
    tableKeyData (some "tbl.abc123") = "tbl.abc123" ∧
    (∀ s : String, '.' ∉ s.data → tableKeyData (some s) = "") ∧
    (∀ s : String, '.' ∉ s.data → keyData (some s) = s) ∧
    (∀ (s : String) (t k : List Char), tableKeyGroups s.data = (some t, some k) →
        t ≠ [] ∧ k ≠ [] ∧ tableKeyData (some s) = String.mk (t ++ '.' :: k)) ∧
    (∀ s : String, (∀ t k, tableKeyGroups s.data ≠ (some t, some k)) →
        tableKeyData (some s) = "") := by
  refine ⟨by decide, ?_, ?_, ?_, ?_⟩
  · intro s h
    unfold tableKeyData
    dsimp only
    by_cases hd : s.data = []
    · simp [hd]
    · rw [if_neg hd]
      have h1 : (tableKeyGroups s.data).1 = none := tkg_no_dot s.data h
      have he : tableKeyGroups s.data = (none, (tableKeyGroups s.data).2) := by
        rw [← h1]
      rw [he]
      exact tkRender_fst_none _
  · intro s _
    exact keyData_some s
  · intro s t k h
    obtain ⟨ht, hk⟩ := tkg_some_some h
    refine ⟨ht, hk, ?_⟩
    have hd : s.data ≠ [] := by
      intro hnil
      rw [hnil] at h
      have : tableKeyGroups [] = (none, none) := by decide
      rw [this] at h
      exact absurd h (by simp)
    unfold tableKeyData
    dsimp only
    rw [if_neg hd, h]
    show (if t ≠ [] ∧ k ≠ [] then String.mk (t ++ '.' :: k) else "") = String.mk (t ++ '.' :: k)
    rw [if_pos ⟨ht, hk⟩]
  · intro s h
    unfold tableKeyData
    dsimp only
    by_cases hd : s.data = []
    · simp [hd]
    · rw [if_neg hd]
      cases hg : tableKeyGroups s.data with
      | mk f sd =>
        cases f with
        | none => exact tkRender_fst_none sd
        | some t =>
          cases sd with
          | none => exact tkRender_snd_none _
          | some k => exact absurd hg (h t k)

/-- Witness for C5: the universally quantified parts of
`keyaddress_parse_normalize` evaluated at concrete inputs. -/
theorem keyaddress_parse_normalize_witness :
    tableKeyData (some "abc") = "" ∧ keyData (some "abc") = "abc" ∧
    tableKeyData (some "tbl.x") = String.mk (['t', 'b', 'l'] ++ '.' :: ['x']) ∧
    tableKeyData (some "...") = "" :=
  ⟨keyaddress_parse_normalize.2.1 "abc" (by decide),
   keyaddress_parse_normalize.2.2.1 "abc" (by decide),
   (keyaddress_parse_normalize.2.2.2.1 "tbl.x" ['t', 'b', 'l'] ['x'] (by decide)).2.2,
   keyaddress_parse_normalize.2.2.2.2 "..."
     (by
       intro t k hk
       rw [show tableKeyGroups "...".data = (none, none) from by decide] at hk
       exact absurd hk (by simp))⟩

/-- Counterexample for C6: the claim says a `Key` built from a
table-qualified raw string keeps only the identifier, so that
`Key("tbl.abc") == Key("abc")`.  In the code `Key.__init__` stores the raw
value unchanged, so the two keys differ. -/
theorem key_table_qualified_cex :
    keyData (some "tbl.abc") = "tbl.abc" ∧ keyData (some "abc") = "abc" ∧
    keyData (some "tbl.abc") ≠ keyData (some "abc") := by
  decide

/-- Claim C6 (corrected).  When a raw string carrying a leading `table.`
prefix is parsed as a bare `Key`, the full raw string — prefix included — is
kept as the key's canonical data, and equality is by that full string, so
`Key("tbl.abc")` and `Key("abc")` are distinct. -/
theorem key_keeps_raw_value : ∀ s : String, keyData (some s) = s :=
  keyData_some

/-- Counterexample for C7: the claim says `exist_query` omits every field
whose value is empty.  With `EXIST_QUERY = "fname lname"` and a serialized
form holding only `fname`, the code includes `lname` with a null value; the
claim's reading (fields with missing or empty values omitted) differs. -/
theorem exist_query_empty_included_cex :
    exist_query (some (Sum.inl "fname lname")) [("fname", "Ana")]
      = some (Sum.inl [("fname", some "Ana"), ("lname", none)]) ∧
    existQueryClaim (some (Sum.inl "fname lname")) [("fname", "Ana")]
      = some (Sum.inl [("fname", some "Ana")]) ∧
    exist_query (some (Sum.inl "fname lname")) [("fname", "Ana")]
      ≠ existQueryClaim (some (Sum.inl "fname lname")) [("fname", "Ana")] :=
  ⟨by decide, by decide, by decide⟩

/-- Claim C7 (corrected).  `exist_query` returns null when the entity type
declares no (or a falsy) `EXIST_QUERY`; a single space-separated field list
yields one flat equality query and a list of field-lists yields one query per
sub-list; every listed field is paired with its serialized value and fields
whose value is empty or missing are included with a null value, not
omitted. -/
theorem exist_query_amended :
    (∀ (eq : ExistQ) (js : List (String × String)), truthyEQ eq = false →
        exist_query eq js = none) ∧
    (∀ (s : String) (js : List (String × String)), s ≠ "" →
        exist_query (some (Sum.inl s)) js = some (Sum.inl (buildQ s js))) ∧
    (∀ (l : List String) (js : List (String × String)), l ≠ [] →
        exist_query (some (Sum.inr l)) js = some (Sum.inr (l.map (fun e => buildQ e js)))) ∧
    (∀ (s : String) (js : List (String × String)) (p : String × Option String),
        p ∈ buildQ s js → p.2 = alookup p.1 js ∧ p.1 ≠ "") ∧
    (∀ (s : String) (js : List (String × String)) (k : String),
        k ∈ (splitWs s.data).map String.mk → ∃ v, (k, v) ∈ buildQ s js) := by
  refine ⟨?_, ?_, ?_, ?_, ?_⟩
  · intro eq js h
    simp [exist_query, h]
  · intro s js h
    have ht : truthyEQ (some (Sum.inl s)) = true := by simp [truthyEQ, h]
    simp [exist_query, ht]
  · intro l js h
    cases l with
    | nil => exact absurd rfl h
    | cons x xs => simp [exist_query, truthyEQ]
  · intro s js p hp
    exact buildQ_go_prop js _ [] (by simp) p hp
  · intro s js k hk
    have hne : k ≠ "" := splitWs_tok_ne_empty hk
    exact mem_map_fst_exists (buildQ_go_mem js ((splitWs s.data).map String.mk) [] k hk hne)

/-- Witness for C7: the amended behaviour evaluated at concrete inputs. -/
theorem exist_query_amended_witness :
    exist_query none [("a", "b")] = none ∧
    exist_query (some (Sum.inl "x y")) [("x", "1")] = some (Sum.inl (buildQ "x y" [("x", "1")])) ∧
    exist_query (some (Sum.inr ["x"])) [] = some (Sum.inr (["x"].map (fun e => buildQ e []))) ∧
    (some "1" = alookup "x" [("x", "1")] ∧ "x" ≠ "") ∧
    (∃ v, ("y", v) ∈ buildQ "x y" [("x", "1")]) :=
  ⟨exist_query_amended.1 none [("a", "b")] (by decide),
   exist_query_amended.2.1 "x y" [("x", "1")] (by decide),
   exist_query_amended.2.2.1 ["x"] [] (by decide),
   exist_query_amended.2.2.2.1 "x y" [("x", "1")] ("x", some "1") (by decide),
   exist_query_amended.2.2.2.2 "x y" [("x", "1")] "y" (by decide)⟩

/-- Claim C8 (confirmed).  The existence check returns the single matching
record when the store query matches exactly one (non-empty) record, null when
no record matches or no `EXIST_QUERY` is declared, and raises the ambiguity
error when more than one record matches — it never picks the first match. -/
theorem model_exist_spec :
    (∀ (eq : ExistQ) (r : Record), truthyEQ eq = true → r ≠ [] →
        model_exist eq [r] = Except.ok (some r)) ∧
    (∀ eq : ExistQ, model_exist eq [] = Except.ok none) ∧
    (∀ (eq : ExistQ) (fetched : List Record), truthyEQ eq = false →
        model_exist eq fetched = Except.ok none) ∧
    (∀ (eq : ExistQ) (r1 r2 : Record) (rest : List Record), truthyEQ eq = true →
        model_exist eq (r1 :: r2 :: rest) = Except.error ()) := by
  refine ⟨?_, ?_, ?_, ?_⟩
  · intro eq r ht hr
    simp [model_exist, ht, db_exist, hr]
  · intro eq
    cases ht : truthyEQ eq with
    | false => simp [model_exist, ht]
    | true => simp [model_exist, ht, db_exist]
  · intro eq fetched ht
    simp [model_exist, ht]
  · intro eq r1 r2 rest ht
    simp [model_exist, ht, db_exist]

/-- Witness for C8: the existence check evaluated on zero, one and two
matching records. -/
theorem model_exist_spec_witness :
    model_exist (some (Sum.inl "q")) [[("key", "k1")]] = Except.ok (some [("key", "k1")]) ∧
    model_exist (some (Sum.inl "q")) [] = Except.ok none ∧
    model_exist none [[("key", "k1")]] = Except.ok none ∧
    model_exist (some (Sum.inl "q")) [[("key", "k1")], [("key", "k2")]] = Except.error () :=
  ⟨model_exist_spec.1 (some (Sum.inl "q")) [("key", "k1")] (by decide) (by decide),
   model_exist_spec.2.1 (some (Sum.inl "q")),
   model_exist_spec.2.2.1 none [[("key", "k1")]] (by decide),
   model_exist_spec.2.2.2 (some (Sum.inl "q")) [("key", "k1")] [("key", "k2")] [] (by decide)⟩

/-- Counterexample for C9: the claim says registry lookup strips an optional
trailing `_key` suffix and that unknown names never raise.  The code strips
every occurrence of the substring `_key` (so the registered slug `a_keyb` is
not found under its own name), and the empty string raises `IndexError`. -/
theorem getmodel_replace_all_cex :
    getmodel [("a_keyb", (0 : Nat))] "a_keyb" = Except.ok none ∧
    getmodelClaim [("a_keyb", (0 : Nat))] "a_keyb" = some 0 ∧
    getmodel ([] : List (String × Nat)) "" = Except.error () ∧
    getmodelClaim ([] : List (String × Nat)) "" = none := by
  decide

/-- Claim C9 (corrected).  Registry lookup converts a name whose first
character is uppercase to its canonical slug before the lookup; for other
names it removes every occurrence of the substring `_key` (not only a
trailing suffix) before the lookup; every non-empty unknown name returns no
result rather than raising, and any found model comes from the registry; the
empty string raises an `IndexError`. -/
theorem getmodel_amended :
    (∀ mm : List (String × Nat), getmodel mm "" = Except.error ()) ∧
    (∀ (mm : List (String × Nat)) (v : String) (c : Char) (rest : List Char),
        v.data = c :: rest → c.isUpper = true →
        getmodel mm v = Except.ok (alookup (cls_name_to_slug v) mm)) ∧
    (∀ (mm : List (String × Nat)) (v : String) (c : Char) (rest : List Char),
        v.data = c :: rest → c.isUpper = false →
        getmodel mm v = Except.ok (alookup (String.mk (replaceAll keyPat [] v.data)) mm)) ∧
    (∀ (mm : List (String × Nat)) (v : String), v ≠ "" → getmodel mm v ≠ Except.error ()) ∧
    (∀ (mm : List (String × Nat)) (v : String) (m : Nat),
        getmodel mm v = Except.ok (some m) → m ∈ mm.map Prod.snd) := by
  refine ⟨?_, ?_, ?_, ?_, ?_⟩
  · intro mm
    rfl
  · intro mm v c rest hv hu
    unfold getmodel
    rw [hv]
    dsimp only
    simp [hu]
  · intro mm v c rest hv hu
    unfold getmodel
    rw [hv]
    dsimp only
    simp [hu]
  · intro mm v hv
    cases hd : v.data with
    | nil => exact absurd (string_data_nil hd) hv
    | cons c rest =>
      unfold getmodel
      rw [hd]
      dsimp only
      split <;> simp
  · intro mm v m h
    unfold getmodel at h
    cases hd : v.data with
    | nil =>
      rw [hd] at h
      dsimp only at h
      exact absurd h (by simp)
    | cons c rest =>
      rw [hd] at h
      dsimp only at h
      by_cases hc : c.isUpper = true
      · rw [if_pos hc] at h
        injection h with h
        exact alookup_mem h
      · rw [if_neg hc] at h
        injection h with h
        exact alookup_mem h

/-- Witness for C9: the amended lookup behaviour at concrete names. -/
theorem getmodel_amended_witness :
    getmodel [("x", (1 : Nat))] "" = Except.error () ∧
    getmodel [("patient", (7 : Nat))] "Patient"
      = Except.ok (alookup (cls_name_to_slug "Patient") [("patient", (7 : Nat))]) ∧
    getmodel [("patient", (7 : Nat))] "patient_key"
      = Except.ok (alookup (String.mk (replaceAll keyPat [] "patient_key".data))
          [("patient", (7 : Nat))]) ∧
    getmodel [("patient", (7 : Nat))] "patient" ≠ Except.error () ∧
    (7 : Nat) ∈ ([("patient", (7 : Nat))].map Prod.snd) :=
  ⟨getmodel_amended.1 [("x", (1 : Nat))],
   getmodel_amended.2.1 [("patient", (7 : Nat))] "Patient" 'P' "atient".data (by decide) (by decide),
   getmodel_amended.2.2.1 [("patient", (7 : Nat))] "patient_key" 'p' "atient_key".data
     (by decide) (by decide),
   getmodel_amended.2.2.2.1 [("patient", (7 : Nat))] "patient" (by decide),
   getmodel_amended.2.2.2.2 [("patient", (7 : Nat))] "patient" 7 (by decide)⟩

/-- Counterexample for C2: the claim says a `lazy=true` population call skips
the fetch for a type whenever its slot already holds entries.  With a truthy
query argument (as `update_dependencies` passes for any model with a declared
`FETCH_QUERY`, or a caller override) the code forces `lazy = False`: the
fetch happens and the non-empty slot is replaced. -/
theorem set_context_lazy_cex :
    set_context (fun _ => [[("key", "k2"), ("v", "2")]]) [(some "k1", [("key", "k1")])] true
        (some [("f", "v")]) none
      = ([(some "k2", [("key", "k2"), ("v", "2")])], true) ∧
    (set_context (fun _ => [[("key", "k2"), ("v", "2")]]) [(some "k1", [("key", "k1")])] true
        (some [("f", "v")]) none).2 ≠ false ∧
    (set_context (fun _ => [[("key", "k2"), ("v", "2")]]) [(some "k1", [("key", "k1")])] true
        (some [("f", "v")]) none).1 ≠ [(some "k1", [("key", "k1")])] :=
  ⟨by decide, by decide, by decide⟩

/-- Claim C2 (corrected).  With `lazy = true` and a null-or-empty query
argument, a population call skips the store fetch for a type whenever its
slot already holds entries and leaves the slot unchanged (so a second such
lazy call performs no additional fetch); with `lazy = false` the fetch is
always performed and the slot fully replaced.  A non-empty query argument
forces the fetch even under `lazy = true`. -/
theorem set_context_lazy_amended :
    (∀ (fetch : Option Query → List Record) (slot : Slot) (q fq : Option Query),
        queryTruthy q = false → slot ≠ [] → set_context fetch slot true q fq = (slot, false)) ∧
    (∀ (fetch : Option Query → List Record) (slot : Slot) (q fq : Option Query),
        set_context fetch slot false q fq = (buildContext (fetch (queryOr q fq)), true)) := by
  constructor
  · intro fetch slot q fq hq hs
    simp [set_context, hq, hs]
  · intro fetch slot q fq
    cases hq : queryTruthy q <;> simp [set_context, hq]

/-- Witness for C2: the lazy skip and the eager replacement at a concrete
store and slot. -/
theorem set_context_lazy_amended_witness :
    set_context (fun _ => [[("key", "k2")]]) [(some "k1", [("key", "k1")])] true none none
      = ([(some "k1", [("key", "k1")])], false) ∧
    set_context (fun _ => [[("key", "k2")]]) [(some "k1", [("key", "k1")])] false none none
      = (buildContext ((fun _ => [[("key", "k2")]]) (queryOr none none)), true) :=
  ⟨set_context_lazy_amended.1 (fun _ => [[("key", "k2")]]) [(some "k1", [("key", "k1")])] none none
      (by decide) (by decide),
   set_context_lazy_amended.2 (fun _ => [[("key", "k2")]]) [(some "k1", [("key", "k1")])] none none⟩

/-- Counterexample for C10: the claim says any non-null query forces an eager
fetch.  An empty query dict is non-null but falsy in Python, so the lazy skip
still applies: no fetch is performed and the slot is kept. -/
theorem set_context_empty_query_cex :
    set_context (fun _ => [[("key", "k2")]]) [(some "k1", [("key", "k1")])] true
        (some ([] : Query)) none
      = ([(some "k1", [("key", "k1")])], false) ∧
    (some ([] : Query)) ≠ (none : Option Query) :=
  ⟨by decide, by decide⟩

/-- Claim C10 (corrected).  A non-empty (truthy) query argument forces eager
behaviour: the call always fetches with that query and replaces the slot,
whatever `lazy` is; and a call skips the fetch only when the query is null or
empty, `lazy` is true and the slot is non-empty — in which case the slot is
returned unchanged. -/
theorem set_context_query_forces_fetch :
    (∀ (fetch : Option Query → List Record) (slot : Slot) (lazy : Bool) (q fq : Option Query),
        queryTruthy q = true → set_context fetch slot lazy q fq = (buildContext (fetch q), true)) ∧
    (∀ (fetch : Option Query → List Record) (slot : Slot) (lazy : Bool) (q fq : Option Query)
        (s2 : Slot), set_context fetch slot lazy q fq = (s2, false) →
        queryTruthy q = false ∧ lazy = true ∧ slot ≠ [] ∧ s2 = slot) := by
  constructor
  · intro fetch slot lazy q fq hq
    have hqo : queryOr q fq = q := by simp [queryOr, hq]
    simp [set_context, hq, hqo]
  · intro fetch slot lazy q fq s2 h
    cases hq : queryTruthy q with
    | true =>
      unfold set_context at h
      simp [hq] at h
    | false =>
      unfold set_context at h
      simp only [hq, Bool.false_eq_true, if_false] at h
      cases lazy with
      | false => simp at h
      | true =>
        by_cases hs : slot = ([] : Slot)
        · simp [hs] at h
        · simp only [if_true, if_neg hs, Prod.mk.injEq] at h
          exact ⟨rfl, rfl, hs, h.1.symm⟩

/-- Witness for C10: a truthy query fetching eagerly despite `lazy = true`,
and a fetch-skipping call characterised. -/
theorem set_context_query_forces_fetch_witness :
    set_context (fun _ => [[("key", "k2")]]) [(some "k1", [("key", "k1")])] true
        (some [("f", "v")]) none
      = (buildContext ((fun _ => [[("key", "k2")]]) (some [("f", "v")])), true) ∧
    (queryTruthy (none : Option Query) = false ∧ true = true ∧
      ([(some "k1", [("key", "k1")])] : Slot) ≠ [] ∧
      ([(some "k1", [("key", "k1")])] : Slot) = [(some "k1", [("key", "k1")])]) :=
  ⟨set_context_query_forces_fetch.1 (fun _ => [[("key", "k2")]]) [(some "k1", [("key", "k1")])]
      true (some [("f", "v")]) none (by decide),
   set_context_query_forces_fetch.2 (fun _ => [[("key", "k2")]]) [(some "k1", [("key", "k1")])]
      true none none [(some "k1", [("key", "k1")])] (by decide)⟩

/-- A store for the population model: model `a` fetches one record, any other
model's fetch fails. -/
def cFetchE : String → Option Query → Except Unit (List Record) :=
  fun m _ => if m = "a" then Except.ok [[("key", "k1")]] else Except.error ()

/-- Counterexample for C3: the claim says a failing fetch leaves no partial
results committed.  Running the population of `["a", "b"]` over an empty
scope where `b`'s fetch fails: the call as a whole fails, yet `a`'s freshly
fetched slot is already committed to the scope cache. -/
theorem update_dependencies_partial_commit_cex :
    update_dependencies cFetchE (fun _ => none) none false ["a", "b"] []
      = (false, [("a", [(some "k1", [("key", "k1")])])]) ∧
    slotOf (update_dependencies cFetchE (fun _ => none) none false ["a", "b"] []).2 "a" ≠ [] :=
  ⟨by decide, by decide⟩

/-- Claim C3 (corrected).  If any per-type fetch fails during a populate
call, the whole call fails, but the per-type slots committed by tasks that
completed before the failure remain in the scope cache (no rollback); the
types after the failing one are not processed.  Formally: when the prefix
`pre` populates successfully producing scope `sc2` and the fetch for `m`
then fails, the whole call over `pre ++ m :: rest` returns failure with
exactly the prefix-committed scope `sc2`. -/
theorem update_dependencies_partial_commit :
    ∀ (fE : String → Option Query → Except Unit (List Record)) (fQ : String → Option Query)
      (qs : Option (List (String × Option Query))) (lazy : Bool) (pre : List String) (m : String)
      (rest : List String) (sc sc2 : Scope),
      update_dependencies fE fQ qs lazy pre sc = (true, sc2) →
      set_contextE (fE m) (slotOf sc2 m) lazy (resolvedQuery qs fQ m) (fQ m) = Except.error () →
      update_dependencies fE fQ qs lazy (pre ++ m :: rest) sc = (false, sc2) := by
  intro fE fQ qs lazy pre
  induction pre with
  | nil =>
    intro m rest sc sc2 h1 h2
    have hsc : sc = sc2 := by
      simpa [update_dependencies] using h1
    subst hsc
    simp [update_dependencies, h2]
  | cons p ps ih =>
    intro m rest sc sc2 h1 h2
    simp only [update_dependencies] at h1
    cases hp : set_contextE (fE p) (slotOf sc p) lazy (resolvedQuery qs fQ p) (fQ p) with
    | error e =>
      rw [hp] at h1
      simp at h1
    | ok pr =>
      obtain ⟨slot, b⟩ := pr
      rw [hp] at h1
      dsimp only at h1
      show update_dependencies fE fQ qs lazy (p :: (ps ++ m :: rest)) sc = (false, sc2)
      simp only [update_dependencies]
      rw [hp]
      dsimp only
      exact ih m rest (writeSlot sc p slot) sc2 h1 h2

/-- Witness for C3: the amended statement applied to the concrete failing
population, with the prefix `["a"]` committed and `"b"` failing before
`"c"` is ever processed. -/
theorem update_dependencies_partial_commit_witness :
    update_dependencies cFetchE (fun _ => none) none false (["a"] ++ "b" :: ["c"]) []
      = (false, [("a", [(some "k1", [("key", "k1")])])]) :=
  update_dependencies_partial_commit cFetchE (fun _ => none) none false ["a"] "b" ["c"] []
    [("a", [(some "k1", [("key", "k1")])])] (by decide) (by decide)

/-- Counterexample for C4: the claim says a fetched record lacking a usable
key is dropped and never inserted into the per-type map.  A record without a
`key` field is in fact inserted, under the null key. -/
theorem buildContext_keyless_kept_cex :
    buildContext [[("a", "1")]] = [(none, [("a", "1")])] ∧
    (none, [("a", "1")]) ∈ buildContext [[("a", "1")]] ∧
    recKey [("a", "1")] = none :=
  ⟨by decide, by decide, by decide⟩

/-- Claim C4 (corrected).  During population every fetched record is indexed
into the per-type cache map under the value `getter` extracts from its `key`
attribute — records lacking a usable key included, which are indexed under
the null key (colliding keyless records overwrite one another) rather than
dropped; every map entry's key is the `key` attribute of its record. -/
theorem buildContext_key_indexed :
    ∀ recs : List Record,
      (∀ r ∈ recs, recKey r ∈ (buildContext recs).map Prod.fst) ∧
      (∀ p ∈ buildContext recs, recKey p.2 = p.1) := by
  intro recs
  constructor
  · intro r hr
    exact buildContext_go_mem recs [] r hr
  · exact buildContext_go_prop recs [] (by simp)

/-- Witness for C4: a keyed and a keyless record both indexed by the map. -/
theorem buildContext_key_indexed_witness :
    recKey [("nokey", "x")] ∈ (buildContext [[("key", "k1")], [("nokey", "x")]]).map Prod.fst ∧
    recKey ((some "k1", [("key", "k1")]) : Option String × Record).2 = some "k1" :=
  ⟨(buildContext_key_indexed [[("key", "k1")], [("nokey", "x")]]).1 [("nokey", "x")] (by decide),
   (buildContext_key_indexed [[("key", "k1")], [("nokey", "x")]]).2 (some "k1", [("key", "k1")])
     (by decide)⟩

end Ormspace
